import Mathlib

/-!
Verification of the HA replica tracker (package `ha`) against its
natural-language specification.

The Go source is shallowly embedded:
* wall-clock instants and durations are `Int` milliseconds (the Go code
  stores `ReceivedAt`/`DeletedAt` as milliseconds since epoch and compares
  `time.Duration` values; scaling every quantity by the same factor
  preserves every comparison the code makes);
* Go maps are association lists with lookup / insert / erase helpers;
* the KV store seen by one process is an association list from key to
  `ReplicaDesc`; a CAS applies the caller-supplied mutator to the current
  value and either stores the returned descriptor, stores nothing, or
  fails with the mutator's error;
* fallible results are `Option` values (`none` = Go `nil` error).
-/

namespace HA

/-- `ReplicaDesc`, the value persisted at each KV key: elected replica name,
last-received timestamp (ms), and tombstone timestamp (ms, 0 = live). -/
structure ReplicaDesc where
  Replica : String
  ReceivedAt : Int
  DeletedAt : Int
deriving DecidableEq

/-- The Go zero value `ReplicaDesc{}` produced by indexing a map at a
missing key. -/
def zeroReplicaDesc : ReplicaDesc := ⟨"", 0, 0⟩

/-- `kv.Config`: only the `Store` backend name matters to the tracker. -/
structure KVConfig where
  Store : String
deriving DecidableEq

/-- `HATrackerConfig` (durations in ms). -/
structure HATrackerConfig where
  EnableHATracker : Bool
  UpdateTimeout : Int
  UpdateTimeoutJitterMax : Int
  FailoverTimeout : Int
  KVStore : KVConfig
deriving DecidableEq

/-- `time.Second` in the millisecond scale of this embedding. -/
def second : Int := 1000

/-- The errors `HATrackerConfig.Validate` can return. -/
inductive ValidateErr where
  | negativeUpdateTimeoutJitterMax : ValidateErr
  | invalidFailoverTimeout : ValidateErr
  | invalidStoreType : ValidateErr
deriving DecidableEq

/-- `storeAllowedList` from `Validate`: the only KV backends the tracker
accepts. -/
def storeAllowedList : List String := ["consul", "etcd"]

/-- `HATrackerConfig.Validate`: reject a negative jitter bound, a failover
timeout smaller than `UpdateTimeout + UpdateTimeoutJitterMax + 1s`, and any
KV backend outside `storeAllowedList`. `none` = success. -/
def HATrackerConfig.Validate (cfg : HATrackerConfig) : Option ValidateErr :=
  if cfg.UpdateTimeoutJitterMax < 0 then
    some .negativeUpdateTimeoutJitterMax
  else
    let minFailureTimeout := cfg.UpdateTimeout + cfg.UpdateTimeoutJitterMax + second
    if cfg.FailoverTimeout < minFailureTimeout then
      some .invalidFailoverTimeout
    else if cfg.KVStore.Store ∈ storeAllowedList then
      none
    else
      some .invalidStoreType

/-- Modelled from the spec: "Validation runs at construction. On failure,
the component refuses to start." The construction-time caller of `Validate`
is not among the provided sources, so the startup gate is taken from the
spec's words: the component starts exactly when `Validate` succeeds. -/
def componentStarts (cfg : HATrackerConfig) : Bool :=
  (cfg.Validate).isNone

/-! ### Association-list embedding of Go maps -/

section AssocMap

variable {κ α : Type} [DecidableEq κ]

/-- Go map indexing `m[k]` (the `value, ok` form): `none` when absent. -/
def lookupA : List (κ × α) → κ → Option α
  | [], _ => none
  | (k', v) :: l, k => if k = k' then some v else lookupA l k

/-- Go `delete(m, k)`. -/
def eraseA : List (κ × α) → κ → List (κ × α)
  | [], _ => []
  | (k', v) :: l, k => if k' = k then eraseA l k else (k', v) :: eraseA l k

/-- Go map assignment `m[k] = v`. -/
def insertA (l : List (κ × α)) (k : κ) (v : α) : List (κ × α) :=
  (k, v) :: eraseA l k

theorem lookupA_eraseA (l : List (κ × α)) (k k' : κ) :
    lookupA (eraseA l k) k' = if k' = k then none else lookupA l k' := by
  induction l with
  | nil => simp [eraseA, lookupA]
  | cons p l ih =>
    obtain ⟨a, v⟩ := p
    simp only [eraseA]
    split
    · next hak =>
      rw [ih]
      by_cases hk : k' = k
      · simp [hk]
      · have hk' : k' ≠ a := fun h => hk (h.trans hak)
        simp [lookupA, hk, hk']
    · next hak =>
      by_cases hk : k' = a
      · have hkk : k' ≠ k := fun h => hak (hk.symm.trans h)
        simp [lookupA, hk, hkk, hak]
      · simp [lookupA, hk, ih]

theorem lookupA_insertA (l : List (κ × α)) (k : κ) (v : α) (k' : κ) :
    lookupA (insertA l k v) k' = if k' = k then some v else lookupA l k' := by
  by_cases h : k' = k <;> simp [insertA, lookupA, h, lookupA_eraseA]

end AssocMap

/-! ### Set-of-strings operations (Go `map[string]struct{}` used as a set) -/

/-- Go `set[x] = struct{}{}` on a `map[string]struct{}`. -/
def insertS (l : List String) (x : String) : List String :=
  if x ∈ l then l else x :: l

/-- Go `delete(set, x)`. -/
def eraseS : List String → String → List String
  | [], _ => []
  | y :: l, x => if y = x then eraseS l x else y :: eraseS l x

theorem mem_insertS (l : List String) (x y : String) :
    y ∈ insertS l x ↔ y = x ∨ y ∈ l := by
  by_cases h : x ∈ l
  · simp only [insertS, if_pos h]
    constructor
    · exact Or.inr
    · rintro (rfl | hy)
      · exact h
      · exact hy
  · simp [insertS, if_neg h]

theorem mem_eraseS (l : List String) (x y : String) :
    y ∈ eraseS l x ↔ y ∈ l ∧ y ≠ x := by
  induction l with
  | nil => simp [eraseS]
  | cons z l ih =>
    simp only [eraseS]
    split
    · next hz =>
      rw [ih, List.mem_cons]
      constructor
      · rintro ⟨hy, hyx⟩; exact ⟨Or.inr hy, hyx⟩
      · rintro ⟨(rfl | hy), hyx⟩
        · exact absurd hz hyx
        · exact ⟨hy, hyx⟩
    · next hz =>
      rw [List.mem_cons, List.mem_cons, ih]
      constructor
      · rintro (rfl | ⟨hy, hyx⟩)
        · exact ⟨Or.inl rfl, hz⟩
        · exact ⟨Or.inr hy, hyx⟩
      · rintro ⟨(rfl | hy), hyx⟩
        · exact Or.inl rfl
        · exact Or.inr ⟨hy, hyx⟩

theorem eraseS_eq_nil (l : List String) (x : String) :
    eraseS l x = [] ↔ ∀ y ∈ l, y = x := by
  induction l with
  | nil => simp [eraseS]
  | cons z l ih =>
    simp only [eraseS]
    split
    · next hz =>
      rw [ih]
      constructor
      · intro h y hy
        rcases List.mem_cons.mp hy with rfl | hy
        · exact hz
        · exact h y hy
      · intro h y hy
        exact h y (List.mem_cons_of_mem _ hy)
    · next hz =>
      constructor
      · intro h
        exact absurd h (List.cons_ne_nil _ _)
      · intro h
        exact absurd (h z (List.mem_cons_self _ _)) hz

theorem insertS_ne_nil (l : List String) (x : String) : insertS l x ≠ [] := by
  by_cases h : x ∈ l
  · simp only [insertS, if_pos h]
    intro hnil
    rw [hnil] at h
    exact absurd h (List.not_mem_nil x)
  · simp [insertS, if_neg h]

/-! ### `strings.Cut(key, "/")` -/

/-- Split a character list at the first `'/'`: `some (before, after)` when a
slash occurs, `none` otherwise. -/
def cutAux : List Char → Option (List Char × List Char)
  | [] => none
  | c :: cs =>
    if c = '/' then some ([], cs)
    else
      match cutAux cs with
      | none => none
      | some (u, v) => some (c :: u, v)

/-- `strings.Cut(key, "/")`: `some (user, cluster)` when `key` contains a
`'/'` (split at the first occurrence), `none` when it does not (the watch
callback ignores such keys). -/
def cutSlash (s : String) : Option (String × String) :=
  match cutAux s.data with
  | none => none
  | some (u, v) => some (⟨u⟩, ⟨v⟩)

theorem cutAux_eq_append {l u v : List Char} (h : cutAux l = some (u, v)) :
    l = u ++ '/' :: v := by
  induction l generalizing u v with
  | nil => simp [cutAux] at h
  | cons c cs ih =>
    simp only [cutAux] at h
    split at h
    · next hc =>
      obtain ⟨rfl, rfl⟩ := by simpa using h
      simp [hc]
    · next hc =>
      cases hcs : cutAux cs with
      | none => rw [hcs] at h; simp at h
      | some p =>
        obtain ⟨u', v'⟩ := p
        rw [hcs] at h
        obtain ⟨rfl, rfl⟩ := by simpa using h
        simp [ih hcs]

/-- A key is recovered from its `cutSlash` decomposition: the key for
tenant `u` and group `c` is `u ++ "/" ++ c`. -/
theorem cutSlash_eq_append {k : String} {u c : String}
    (h : cutSlash k = some (u, c)) : k = u ++ "/" ++ c := by
  obtain ⟨kd⟩ := k
  simp only [cutSlash] at h
  cases hcut : cutAux kd with
  | none => rw [hcut] at h; simp at h
  | some p =>
    obtain ⟨ud, vd⟩ := p
    rw [hcut] at h
    obtain ⟨rfl, rfl⟩ := by simpa using h
    have h2 : kd = ud ++ ['/'] ++ vd := by
      rw [List.append_assoc]
      simpa using cutAux_eq_append hcut
    exact congrArg String.mk h2

/-- `cutSlash` determines the key: two keys with the same decomposition are
equal. -/
theorem cutSlash_injective {k k' : String} {u c : String}
    (h : cutSlash k = some (u, c)) (h' : cutSlash k' = some (u, c)) :
    k = k' := by
  rw [cutSlash_eq_append h, cutSlash_eq_append h']

/-! ### The tracker's local cache state and the watch callback -/

/-- The in-memory state mutated by the `WatchPrefix` callback in
`HATracker.loop`: the `elected` map, the per-user `replicaGroups` sets, and
the `electedReplicaChanges` counter vector (keyed by its
`(user, cluster)` label values). -/
structure TrackerState where
  elected : List (String × ReplicaDesc)
  replicaGroups : List (String × List String)
  changes : List ((String × String) × Nat)
deriving DecidableEq

/-- The tracker's state at construction: empty maps, no counters. -/
def emptyState : TrackerState := ⟨[], [], []⟩

/-- Go `c.elected[key]` (map indexing without the `ok` flag): the zero
value when the key is absent. -/
def electedOrZero (s : TrackerState) (key : String) : ReplicaDesc :=
  (lookupA s.elected key).getD zeroReplicaDesc

/-- The current value of the `electedReplicaChanges` counter for the label
pair `(user, cluster)` (0 when the labelled child does not exist). -/
def changesCount (s : TrackerState) (p : String × String) : Nat :=
  (lookupA s.changes p).getD 0

/-- The set of replica groups currently tracked for `user`
(`c.replicaGroups[user]`; the empty set when the user is absent, matching
Go's nil-map reads). -/
def groupsOf (s : TrackerState) (user : String) : List String :=
  (lookupA s.replicaGroups user).getD []

/-- The tombstone branch of the watch callback acting on `replicaGroups`:
`userClusters := c.replicaGroups[user]; if userClusters != nil {
delete(userClusters, cluster); if len(userClusters) == 0 {
delete(c.replicaGroups, user) } }`. -/
def tombGroups (G : List (String × List String)) (user cluster : String) :
    List (String × List String) :=
  match lookupA G user with
  | none => G
  | some userClusters =>
    let userClusters' := eraseS userClusters cluster
    if userClusters' = [] then eraseA G user
    else insertA G user userClusters'

/-- The install branch of the watch callback acting on `replicaGroups`
when the key was not cached: `if c.replicaGroups[user] == nil {
c.replicaGroups[user] = map{} }; c.replicaGroups[user][cluster] = {}`. -/
def liveGroups (G : List (String × List String)) (user cluster : String) :
    List (String × List String) :=
  match lookupA G user with
  | none => insertA G user [cluster]
  | some userClusters => insertA G user (insertS userClusters cluster)

/-- The body of the `WatchPrefix` callback in `HATracker.loop`, acting on
one notification `(key, replica)`:
* keys without a `/` separator are ignored;
* a tombstone (`DeletedAt > 0`) removes the key from `elected`, deletes the
  labelled `electedReplicaChanges` child, removes the group from the user's
  set, and drops the user when the set becomes empty;
* otherwise the change counter is bumped when the observed `Replica`
  differs from the cached one (Go's zero value for a missing entry), the
  group is registered when the key was not cached, and the descriptor is
  installed. -/
def watchCB (s : TrackerState) (key : String) (replica : ReplicaDesc) :
    TrackerState :=
  match cutSlash key with
  | none => s
  | some (user, cluster) =>
    if replica.DeletedAt > 0 then
      { elected := eraseA s.elected key
        replicaGroups := tombGroups s.replicaGroups user cluster
        changes := eraseA s.changes (user, cluster) }
    else
      { elected := insertA s.elected key replica
        replicaGroups :=
          if (lookupA s.elected key).isSome then s.replicaGroups
          else liveGroups s.replicaGroups user cluster
        changes :=
          if replica.Replica ≠ (electedOrZero s key).Replica then
            insertA s.changes (user, cluster)
              (changesCount s (user, cluster) + 1)
          else s.changes }

theorem watchCB_cut_none (s : TrackerState) (key : String)
    (replica : ReplicaDesc) (hcut : cutSlash key = none) :
    watchCB s key replica = s := by
  simp [watchCB, hcut]

theorem watchCB_tombstone (s : TrackerState) (key u c : String)
    (replica : ReplicaDesc) (hcut : cutSlash key = some (u, c))
    (hdel : replica.DeletedAt > 0) :
    watchCB s key replica =
      { elected := eraseA s.elected key
        replicaGroups := tombGroups s.replicaGroups u c
        changes := eraseA s.changes (u, c) } := by
  simp [watchCB, hcut, hdel]

theorem watchCB_live (s : TrackerState) (key u c : String)
    (replica : ReplicaDesc) (hcut : cutSlash key = some (u, c))
    (hdel : ¬replica.DeletedAt > 0) :
    watchCB s key replica =
      { elected := insertA s.elected key replica
        replicaGroups :=
          if (lookupA s.elected key).isSome then s.replicaGroups
          else liveGroups s.replicaGroups u c
        changes :=
          if replica.Replica ≠ (electedOrZero s key).Replica then
            insertA s.changes (u, c) (changesCount s (u, c) + 1)
          else s.changes } := by
  simp [watchCB, hcut, hdel]

theorem lookupGroups_tombGroups (G : List (String × List String))
    (u c t : String) :
    (lookupA (tombGroups G u c) t).getD [] =
      if t = u then eraseS ((lookupA G u).getD []) c
      else (lookupA G t).getD [] := by
  unfold tombGroups
  cases hgu : lookupA G u with
  | none =>
    by_cases ht : t = u
    · subst ht
      rw [hgu]
      simp [eraseS]
    · simp [ht]
  | some gs =>
    dsimp only
    split
    · next hnil =>
      rw [lookupA_eraseA]
      by_cases ht : t = u <;> simp [ht, hnil]
    · next hnil =>
      rw [lookupA_insertA]
      by_cases ht : t = u <;> simp [ht]

theorem lookupGroups_liveGroups (G : List (String × List String))
    (u c t : String) :
    (lookupA (liveGroups G u c) t).getD [] =
      if t = u then insertS ((lookupA G u).getD []) c
      else (lookupA G t).getD [] := by
  unfold liveGroups
  cases hgu : lookupA G u with
  | none =>
    rw [lookupA_insertA]
    by_cases ht : t = u <;> simp [ht, insertS]
  | some gs =>
    rw [lookupA_insertA]
    by_cases ht : t = u <;> simp [ht]

/-- States of the local cache reachable from the empty cache by watch
notifications. -/
inductive Reachable : TrackerState → Prop
  | empty : Reachable emptyState
  | step (s : TrackerState) (key : String) (replica : ReplicaDesc) :
      Reachable s → Reachable (watchCB s key replica)

/-- The cache-coherence invariant: `replicaGroups` tracks, for each user,
exactly the groups whose key is present in `elected`, and no user is kept
with an empty group set. -/
def Coherent (s : TrackerState) : Prop :=
  (∀ t g, g ∈ groupsOf s t ↔
      ∃ k d, cutSlash k = some (t, g) ∧ lookupA s.elected k = some d)
  ∧ ∀ u gs, lookupA s.replicaGroups u = some gs → gs ≠ []

theorem coherent_empty : Coherent emptyState := by
  constructor
  · intro t g
    simp [groupsOf, emptyState, lookupA]
  · intro u gs h
    simp [emptyState, lookupA] at h

theorem coherent_tombstone (s : TrackerState) (key u c : String)
    (chg : List ((String × String) × Nat))
    (hcut : cutSlash key = some (u, c)) (h : Coherent s) :
    Coherent
      { elected := eraseA s.elected key
        replicaGroups := tombGroups s.replicaGroups u c
        changes := chg } := by
  obtain ⟨h1, h2⟩ := h
  constructor
  · intro t g
    have hRHS :
        (∃ k d, cutSlash k = some (t, g) ∧
          lookupA (eraseA s.elected key) k = some d) ↔
        (¬(t = u ∧ g = c) ∧
          ∃ k d, cutSlash k = some (t, g) ∧ lookupA s.elected k = some d) := by
      constructor
      · rintro ⟨k, d, hk, hl⟩
        rw [lookupA_eraseA] at hl
        by_cases hkey : k = key
        · rw [if_pos hkey] at hl
          exact absurd hl (by simp)
        · rw [if_neg hkey] at hl
          refine ⟨?_, k, d, hk, hl⟩
          rintro ⟨rfl, rfl⟩
          exact hkey (cutSlash_injective hk hcut)
      · rintro ⟨hne, k, d, hk, hl⟩
        refine ⟨k, d, hk, ?_⟩
        rw [lookupA_eraseA, if_neg ?_]
        · exact hl
        · intro hkk
          subst hkk
          have hp := Option.some.inj (hk.symm.trans hcut)
          cases hp
          exact hne ⟨rfl, rfl⟩
    show g ∈ (lookupA (tombGroups s.replicaGroups u c) t).getD [] ↔ _
    rw [hRHS, lookupGroups_tombGroups]
    by_cases ht : t = u
    · rw [if_pos ht]
      rw [mem_eraseS]
      show g ∈ groupsOf s u ∧ g ≠ c ↔ _
      rw [h1 u g]
      constructor
      · rintro ⟨ho, hgc⟩
        subst ht
        exact ⟨fun hp => hgc hp.2, ho⟩
      · rintro ⟨hne, ho⟩
        subst ht
        exact ⟨ho, fun hgc => hne ⟨rfl, hgc⟩⟩
    · rw [if_neg ht]
      show g ∈ groupsOf s t ↔ _
      rw [h1 t g]
      constructor
      · intro ho
        exact ⟨fun hp => ht hp.1, ho⟩
      · exact And.right
  · intro u' gs' hl
    show gs' ≠ []
    revert hl
    show lookupA (tombGroups s.replicaGroups u c) u' = some gs' → _
    unfold tombGroups
    cases hgu : lookupA s.replicaGroups u with
    | none => exact h2 u' gs'
    | some gs =>
      dsimp only
      split
      · next hnil =>
        rw [lookupA_eraseA]
        split
        · intro h; exact absurd h (by simp)
        · exact h2 u' gs'
      · next hnil =>
        rw [lookupA_insertA]
        split
        · intro h
          cases Option.some.inj h
          exact hnil
        · exact h2 u' gs'

theorem coherent_live (s : TrackerState) (key u c : String)
    (replica : ReplicaDesc) (chg : List ((String × String) × Nat))
    (hcut : cutSlash key = some (u, c)) (h : Coherent s) :
    Coherent
      { elected := insertA s.elected key replica
        replicaGroups :=
          if (lookupA s.elected key).isSome then s.replicaGroups
          else liveGroups s.replicaGroups u c
        changes := chg } := by
  obtain ⟨h1, h2⟩ := h
  constructor
  · intro t g
    have hRHS :
        (∃ k d, cutSlash k = some (t, g) ∧
          lookupA (insertA s.elected key replica) k = some d) ↔
        ((t = u ∧ g = c) ∨
          ∃ k d, cutSlash k = some (t, g) ∧
            lookupA s.elected k = some d ∧ k ≠ key) := by
      constructor
      · rintro ⟨k, d, hk, hl⟩
        rw [lookupA_insertA] at hl
        by_cases hkey : k = key
        · subst hkey
          have hp := Option.some.inj (hk.symm.trans hcut)
          cases hp
          exact Or.inl ⟨rfl, rfl⟩
        · rw [if_neg hkey] at hl
          exact Or.inr ⟨k, d, hk, hl, hkey⟩
      · rintro (⟨rfl, rfl⟩ | ⟨k, d, hk, hl, hkey⟩)
        · exact ⟨key, replica, hcut, by rw [lookupA_insertA, if_pos rfl]⟩
        · exact ⟨k, d, hk, by rw [lookupA_insertA, if_neg hkey]; exact hl⟩
    show g ∈ (lookupA (if (lookupA s.elected key).isSome then s.replicaGroups
        else liveGroups s.replicaGroups u c) t).getD [] ↔ _
    rw [hRHS]
    by_cases hex : (lookupA s.elected key).isSome
    · rw [if_pos hex]
      obtain ⟨e, he⟩ := Option.isSome_iff_exists.mp hex
      by_cases hug : t = u ∧ g = c
      · obtain ⟨rfl, rfl⟩ := hug
        have hL : g ∈ groupsOf s t := (h1 t g).mpr ⟨key, e, hcut, he⟩
        exact iff_of_true hL (Or.inl ⟨rfl, rfl⟩)
      · show g ∈ groupsOf s t ↔ _
        rw [h1 t g]
        constructor
        · rintro ⟨k, d, hk, hl⟩
          refine Or.inr ⟨k, d, hk, hl, ?_⟩
          intro hkk
          subst hkk
          have hp := Option.some.inj (hk.symm.trans hcut)
          cases hp
          exact hug ⟨rfl, rfl⟩
        · rintro (hug' | ⟨k, d, hk, hl, _⟩)
          · exact absurd hug' hug
          · exact ⟨k, d, hk, hl⟩
    · rw [if_neg hex]
      show g ∈ (lookupA (liveGroups s.replicaGroups u c) t).getD [] ↔ _
      rw [lookupGroups_liveGroups]
      by_cases ht : t = u
      · rw [if_pos ht]
        rw [mem_insertS]
        subst ht
        constructor
        · rintro (rfl | hg)
          · exact Or.inl ⟨rfl, rfl⟩
          · show _ ∨ _
            obtain ⟨k, d, hk, hl⟩ := (h1 t g).mp hg
            by_cases hkey : k = key
            · subst hkey
              have hp := Option.some.inj (hk.symm.trans hcut)
              cases hp
              exact Or.inl ⟨rfl, rfl⟩
            · exact Or.inr ⟨k, d, hk, hl, hkey⟩
        · rintro (⟨_, rfl⟩ | ⟨k, d, hk, hl, _⟩)
          · exact Or.inl rfl
          · exact Or.inr ((h1 t g).mpr ⟨k, d, hk, hl⟩)
      · rw [if_neg ht]
        show g ∈ groupsOf s t ↔ _
        rw [h1 t g]
        constructor
        · rintro ⟨k, d, hk, hl⟩
          refine Or.inr ⟨k, d, hk, hl, ?_⟩
          intro hkk
          subst hkk
          have hp := Option.some.inj (hk.symm.trans hcut)
          cases hp
          exact ht rfl
        · rintro (⟨ht', _⟩ | ⟨k, d, hk, hl, _⟩)
          · exact absurd ht' ht
          · exact ⟨k, d, hk, hl⟩
  · intro u' gs' hl
    revert hl
    show lookupA (if (lookupA s.elected key).isSome then s.replicaGroups
        else liveGroups s.replicaGroups u c) u' = some gs' → gs' ≠ []
    by_cases hex : (lookupA s.elected key).isSome
    · rw [if_pos hex]
      exact h2 u' gs'
    · rw [if_neg hex]
      unfold liveGroups
      cases hgu : lookupA s.replicaGroups u with
      | none =>
        rw [lookupA_insertA]
        split
        · intro h
          cases Option.some.inj h
          simp
        · exact h2 u' gs'
      | some gs =>
        rw [lookupA_insertA]
        split
        · intro h
          cases Option.some.inj h
          exact insertS_ne_nil gs c
        · exact h2 u' gs'

/-- Every reachable cache state is coherent. -/
theorem coherent_reachable (s : TrackerState) (hs : Reachable s) :
    Coherent s := by
  induction hs with
  | empty => exact coherent_empty
  | step s key replica _ ih =>
    cases hcut : cutSlash key with
    | none => rw [watchCB_cut_none s key replica hcut]; exact ih
    | some p =>
      obtain ⟨u, c⟩ := p
      by_cases hdel : replica.DeletedAt > 0
      · rw [watchCB_tombstone s key u c replica hcut hdel]
        exact coherent_tombstone s key u c _ hcut ih
      · rw [watchCB_live s key u c replica hcut hdel]
        exact coherent_live s key u c replica _ hcut ih

/-- **C5**: in every cache state reachable from the empty cache by
watch-callback invocations, `replicaGroups[t]` holds exactly the group
names `g` whose key (the one the callback parses into tenant `t` and group
`g`) has a live entry in `elected`; no tenant is kept with an empty group
set (so a tenant is dropped in the same step its set empties); and a
tombstone notification removes the key from `elected` and the group from
`replicaGroups[t]` in that same step. -/
theorem watch_cache_coherence (s : TrackerState) (hs : Reachable s) :
    (∀ t g, g ∈ groupsOf s t ↔
      ∃ k d, cutSlash k = some (t, g) ∧ lookupA s.elected k = some d)
    ∧ (∀ u gs, lookupA s.replicaGroups u = some gs → gs ≠ [])
    ∧ ∀ key u c replica, cutSlash key = some (u, c) →
        replica.DeletedAt > 0 →
        lookupA (watchCB s key replica).elected key = none
        ∧ c ∉ groupsOf (watchCB s key replica) u := by
  obtain ⟨h1, h2⟩ := coherent_reachable s hs
  refine ⟨h1, h2, ?_⟩
  intro key u c replica hcut hdel
  rw [watchCB_tombstone s key u c replica hcut hdel]
  constructor
  · show lookupA (eraseA s.elected key) key = none
    rw [lookupA_eraseA, if_pos rfl]
  · show c ∉ (lookupA (tombGroups s.replicaGroups u c) u).getD []
    rw [lookupGroups_tombGroups, if_pos rfl, mem_eraseS]
    rintro ⟨_, hc⟩
    exact hc rfl

/-- Witness for C5: after installing key `"u1/c1"`, the group `"c1"` is
tracked for tenant `"u1"`, by the coherence theorem. -/
theorem watch_cache_coherence_witness :
    "c1" ∈ groupsOf (watchCB emptyState "u1/c1" ⟨"R1", 5, 0⟩) "u1" := by
  have h := watch_cache_coherence (watchCB emptyState "u1/c1" ⟨"R1", 5, 0⟩)
    (Reachable.step _ _ _ Reachable.empty)
  exact (h.1 "u1" "c1").mpr ⟨"u1/c1", ⟨"R1", 5, 0⟩, by decide, by decide⟩

/-- **C8**: on a watch observation of a live descriptor for a key parsed
as `(u, c)`, the `electedReplicaChanges` counter for `(u, c)` is bumped by
exactly one when the observed `Replica` differs from the cached
`elected[key].Replica` (Go map indexing, i.e. the zero value when absent),
evaluated on the state *before* the new descriptor is installed; it is
unchanged when the replica matches, and no other label pair's counter
moves. -/
theorem elected_changes_counter (s : TrackerState) (key u c : String)
    (replica : ReplicaDesc) (hcut : cutSlash key = some (u, c))
    (hlive : ¬replica.DeletedAt > 0) :
    (replica.Replica ≠ (electedOrZero s key).Replica →
      changesCount (watchCB s key replica) (u, c) = changesCount s (u, c) + 1)
    ∧ (replica.Replica = (electedOrZero s key).Replica →
      changesCount (watchCB s key replica) (u, c) = changesCount s (u, c))
    ∧ ∀ p, p ≠ (u, c) →
      changesCount (watchCB s key replica) p = changesCount s p := by
  rw [watchCB_live s key u c replica hcut hlive]
  refine ⟨?_, ?_, ?_⟩
  · intro hflip
    show (lookupA (if replica.Replica ≠ (electedOrZero s key).Replica then
        insertA s.changes (u, c) (changesCount s (u, c) + 1)
      else s.changes) (u, c)).getD 0 = _
    rw [if_pos hflip, lookupA_insertA, if_pos rfl]
    rfl
  · intro hsame
    show (lookupA (if replica.Replica ≠ (electedOrZero s key).Replica then
        insertA s.changes (u, c) (changesCount s (u, c) + 1)
      else s.changes) (u, c)).getD 0 = _
    rw [if_neg (by simpa using hsame)]
    rfl
  · intro p hp
    show (lookupA (if replica.Replica ≠ (electedOrZero s key).Replica then
        insertA s.changes (u, c) (changesCount s (u, c) + 1)
      else s.changes) p).getD 0 = _
    by_cases hflip : replica.Replica ≠ (electedOrZero s key).Replica
    · rw [if_pos hflip, lookupA_insertA, if_neg hp]
      rfl
    · rw [if_neg hflip]
      rfl

/-- Witness for C8: observing `R1` for the uncached key `"u1/c1"` flips
the counter from 0 to 1. -/
theorem elected_changes_counter_witness :
    changesCount (watchCB emptyState "u1/c1" ⟨"R1", 0, 0⟩) ("u1", "c1") = 1 := by
  have h := elected_changes_counter emptyState "u1/c1" "u1" "c1" ⟨"R1", 0, 0⟩
    (by decide) (by decide)
  exact h.1 (by decide)

/-! ### The admission check: `CheckReplica` and `checkKVStore` -/

/-- The two typed rejection errors of the admission path. -/
inductive HAErr where
  | replicasNotMatch (replica elected : String) : HAErr
  | tooManyReplicaGroups (limit : Int) : HAErr
deriving DecidableEq

/-- The CAS mutator passed to the KV client by `checkKVStore`: first
component is the descriptor to store (`none` = store nothing), second the
error to fail with. A live stored descriptor for the same replica with a
fresh timestamp needs no update; a live descriptor for another replica
within the failover window rejects; every other case (absent, tombstoned,
or expired) writes a fresh `{replica, now, 0}`. -/
def checkKVStoreMutator (cfg : HATrackerConfig) (jitter : Int)
    (replica : String) (now : Int) (desc? : Option ReplicaDesc) :
    Option ReplicaDesc × Option HAErr :=
  match desc? with
  | some desc =>
    if desc.DeletedAt = 0 then
      if desc.Replica = replica ∧
          now - desc.ReceivedAt < cfg.UpdateTimeout + jitter then
        (none, none)
      else if desc.Replica ≠ replica ∧
          now - desc.ReceivedAt < cfg.FailoverTimeout then
        (none, some (.replicasNotMatch replica desc.Replica))
      else
        (some ⟨replica, now, 0⟩, none)
    else
      (some ⟨replica, now, 0⟩, none)
  | none => (some ⟨replica, now, 0⟩, none)

/-- `HATracker.checkKVStore`: run the CAS against the current stored value
for `key`. On a mutator error the store is untouched and the error is
returned; on `(some d, none)` the descriptor is stored; on `(none, none)`
nothing changes. -/
def checkKVStore (cfg : HATrackerConfig) (jitter : Int)
    (kv : List (String × ReplicaDesc)) (key replica : String) (now : Int) :
    Option HAErr × List (String × ReplicaDesc) :=
  match checkKVStoreMutator cfg jitter replica now (lookupA kv key) with
  | (_, some e) => (some e, kv)
  | (some d, none) => (none, insertA kv key d)
  | (none, none) => (none, kv)

/-- The observable outcome of one `CheckReplica` call: the returned error
(`none` = accept), the local cache afterwards, the KV store afterwards,
and whether a CAS was issued. -/
structure CheckOutcome where
  err : Option HAErr
  cache : TrackerState
  kv : List (String × ReplicaDesc)
  casIssued : Bool
deriving DecidableEq

/-- `HATracker.CheckReplica`: accept everything when tracking is disabled;
otherwise read the cached entry and group count under the shared lock,
take the fast path on a fresh cached entry, enforce the per-tenant group
cap on a cache miss, and fall through to the KV CAS. -/
def CheckReplica (cfg : HATrackerConfig) (jitter : Int)
    (limits : Option (String → Int)) (s : TrackerState)
    (kv : List (String × ReplicaDesc))
    (userID replicaGroup replica : String) (now : Int) : CheckOutcome :=
  if cfg.EnableHATracker = false then ⟨none, s, kv, false⟩
  else
    let key := userID ++ "/" ++ replicaGroup
    match lookupA s.elected key with
    | some entry =>
      if now - entry.ReceivedAt < cfg.UpdateTimeout + jitter then
        if entry.Replica ≠ replica then
          ⟨some (.replicasNotMatch replica entry.Replica), s, kv, false⟩
        else
          ⟨none, s, kv, false⟩
      else
        let r := checkKVStore cfg jitter kv key replica now
        ⟨r.1, s, r.2, true⟩
    | none =>
      match limits with
      | some maxHAReplicaGroups =>
        if maxHAReplicaGroups userID > 0 ∧
            (groupsOf s userID).length + 1 > maxHAReplicaGroups userID then
          ⟨some (.tooManyReplicaGroups (maxHAReplicaGroups userID)), s, kv, false⟩
        else
          let r := checkKVStore cfg jitter kv key replica now
          ⟨r.1, s, r.2, true⟩
      | none =>
        let r := checkKVStore cfg jitter kv key replica now
        ⟨r.1, s, r.2, true⟩

theorem checkKVStoreMutator_err_shape (cfg : HATrackerConfig) (jitter : Int)
    (replica : String) (now : Int) (desc? : Option ReplicaDesc) :
    (checkKVStoreMutator cfg jitter replica now desc?).2 = none ∨
      ∃ e, (checkKVStoreMutator cfg jitter replica now desc?).2 =
        some (.replicasNotMatch replica e) := by
  unfold checkKVStoreMutator
  cases desc? with
  | none => simp
  | some desc =>
    dsimp only
    split
    · split
      · simp
      · split
        · exact Or.inr ⟨desc.Replica, rfl⟩
        · simp
    · simp

/-- The slow path can only reject with `replicasNotMatch`, never with the
group-cap error. -/
theorem checkKVStore_err_not_group_cap (cfg : HATrackerConfig) (jitter : Int)
    (kv : List (String × ReplicaDesc)) (key replica : String) (now : Int)
    (l : Int) :
    (checkKVStore cfg jitter kv key replica now).1 ≠
      some (.tooManyReplicaGroups l) := by
  unfold checkKVStore
  rcases hm : checkKVStoreMutator cfg jitter replica now (lookupA kv key)
    with ⟨out, err⟩
  rcases checkKVStoreMutator_err_shape cfg jitter replica now (lookupA kv key)
    with hnone | ⟨e, he⟩
  · rw [hm] at hnone
    dsimp at hnone
    subst hnone
    cases out <;> simp
  · rw [hm] at he
    dsimp at he
    subst he
    simp

/-- **C1**: with HA tracking enabled and a cached entry for
`tenant/replicaGroup` whose timestamp is within `UpdateTimeout + jitter`
of `now`, `CheckReplica` answers from the cache alone: accept when the
cached replica matches, reject with `replicasNotMatch` (carrying the
rejected and the elected replica) when it differs — and in both cases the
KV store is untouched and no CAS is issued. -/
theorem checkReplica_fast_path (cfg : HATrackerConfig) (jitter : Int)
    (limits : Option (String → Int)) (s : TrackerState)
    (kv : List (String × ReplicaDesc)) (userID replicaGroup replica : String)
    (now : Int) (entry : ReplicaDesc)
    (henable : cfg.EnableHATracker = true)
    (hentry : lookupA s.elected (userID ++ "/" ++ replicaGroup) = some entry)
    (hfresh : now - entry.ReceivedAt < cfg.UpdateTimeout + jitter) :
    CheckReplica cfg jitter limits s kv userID replicaGroup replica now =
      ⟨if entry.Replica = replica then none
        else some (.replicasNotMatch replica entry.Replica), s, kv, false⟩ := by
  have hne : ¬(cfg.EnableHATracker = false) := by rw [henable]; decide
  unfold CheckReplica
  rw [if_neg hne]
  simp only [hentry]
  rw [if_pos hfresh]
  by_cases hrep : entry.Replica = replica
  · simp [hrep]
  · simp [hrep]

/-- Witness for C1: a matching replica inside the update window is
accepted from the cache with no CAS. -/
theorem checkReplica_fast_path_witness :
    CheckReplica ⟨true, 15000, 5000, 30000, ⟨"consul"⟩⟩ 0 none
      ⟨[("u1/c1", ⟨"R1", 0, 0⟩)], [("u1", ["c1"])], []⟩
      [("u1/c1", ⟨"R1", 0, 0⟩)] "u1" "c1" "R1" 5000 =
      ⟨none, ⟨[("u1/c1", ⟨"R1", 0, 0⟩)], [("u1", ["c1"])], []⟩,
        [("u1/c1", ⟨"R1", 0, 0⟩)], false⟩ := by
  have h := checkReplica_fast_path ⟨true, 15000, 5000, 30000, ⟨"consul"⟩⟩ 0 none
    ⟨[("u1/c1", ⟨"R1", 0, 0⟩)], [("u1", ["c1"])], []⟩
    [("u1/c1", ⟨"R1", 0, 0⟩)] "u1" "c1" "R1" 5000 ⟨"R1", 0, 0⟩
    rfl (by decide) (by decide)
  simpa using h

/-- **C2**: the slow-path CAS mutator rejects with `replicasNotMatch`
(and stores nothing) exactly on a live stored descriptor for another
replica still inside the failover window; when the stored value is
absent, tombstoned, or its age has reached `FailoverTimeout` (boundary
inclusive) it stores the fresh descriptor `{replica, now, 0}`. Assumes
the validated-configuration bound `UpdateTimeout + jitter ≤
FailoverTimeout`. -/
theorem checkKVStore_mutator_cases (cfg : HATrackerConfig) (jitter : Int)
    (replica : String) (now : Int) (desc? : Option ReplicaDesc)
    (hcfg : cfg.UpdateTimeout + jitter ≤ cfg.FailoverTimeout) :
    (∀ desc, desc? = some desc → desc.DeletedAt = 0 →
      desc.Replica ≠ replica → now - desc.ReceivedAt < cfg.FailoverTimeout →
      checkKVStoreMutator cfg jitter replica now desc? =
        (none, some (.replicasNotMatch replica desc.Replica)))
    ∧ ((desc? = none ∨ (∃ desc, desc? = some desc ∧ desc.DeletedAt > 0) ∨
        (∃ desc, desc? = some desc ∧ desc.DeletedAt = 0 ∧
          cfg.FailoverTimeout ≤ now - desc.ReceivedAt)) →
      checkKVStoreMutator cfg jitter replica now desc? =
        (some ⟨replica, now, 0⟩, none)) := by
  constructor
  · rintro desc rfl hlive hdiff hwin
    unfold checkKVStoreMutator
    dsimp only
    rw [if_pos hlive, if_neg (fun h => hdiff h.1), if_pos ⟨hdiff, hwin⟩]
  · rintro (rfl | ⟨desc, rfl, htomb⟩ | ⟨desc, rfl, hlive, hexp⟩)
    · rfl
    · unfold checkKVStoreMutator
      dsimp only
      rw [if_neg (by omega)]
    · unfold checkKVStoreMutator
      dsimp only
      rw [if_pos hlive,
        if_neg (fun h => absurd h.2 (not_lt.mpr (le_trans hcfg hexp))),
        if_neg (fun h => absurd h.2 (not_lt.mpr hexp))]

/-- Witness for C2: with no stored descriptor the mutator writes the
fresh descriptor. -/
theorem checkKVStore_mutator_cases_witness :
    checkKVStoreMutator ⟨true, 15000, 5000, 30000, ⟨"consul"⟩⟩ 0 "R1" 7 none =
      (some ⟨"R1", 7, 0⟩, none) := by
  have h := checkKVStore_mutator_cases ⟨true, 15000, 5000, 30000, ⟨"consul"⟩⟩
    0 "R1" 7 none (by decide)
  exact h.2 (Or.inl rfl)

/-- **C4**: on a cache miss with HA tracking enabled, a configured
positive group limit that would be exceeded by this new group makes
`CheckReplica` return `tooManyReplicaGroups` with that limit, without a
CAS; with no limits collaborator, or a zero-or-negative returned limit,
the call is never rejected with the group-cap error. -/
theorem checkReplica_group_cap (cfg : HATrackerConfig) (jitter : Int)
    (limits : Option (String → Int)) (s : TrackerState)
    (kv : List (String × ReplicaDesc)) (userID replicaGroup replica : String)
    (now : Int)
    (henable : cfg.EnableHATracker = true)
    (hmiss : lookupA s.elected (userID ++ "/" ++ replicaGroup) = none) :
    (∀ maxG, limits = some maxG → 0 < maxG userID →
      (groupsOf s userID).length + 1 > maxG userID →
      CheckReplica cfg jitter limits s kv userID replicaGroup replica now =
        ⟨some (.tooManyReplicaGroups (maxG userID)), s, kv, false⟩)
    ∧ (limits = none → ∀ l,
      (CheckReplica cfg jitter limits s kv userID replicaGroup replica now).err ≠
        some (.tooManyReplicaGroups l))
    ∧ (∀ maxG, limits = some maxG → maxG userID ≤ 0 → ∀ l,
      (CheckReplica cfg jitter limits s kv userID replicaGroup replica now).err ≠
        some (.tooManyReplicaGroups l)) := by
  have hne : ¬(cfg.EnableHATracker = false) := by rw [henable]; decide
  refine ⟨?_, ?_, ?_⟩
  · rintro maxG rfl hpos hcap
    unfold CheckReplica
    rw [if_neg hne]
    simp only [hmiss]
    rw [if_pos ⟨hpos, hcap⟩]
  · rintro rfl l
    unfold CheckReplica
    rw [if_neg hne]
    simp only [hmiss]
    exact checkKVStore_err_not_group_cap cfg jitter kv
      (userID ++ "/" ++ replicaGroup) replica now l
  · rintro maxG rfl hle l
    unfold CheckReplica
    rw [if_neg hne]
    simp only [hmiss]
    rw [if_neg (fun h => absurd h.1 (not_lt.mpr hle))]
    exact checkKVStore_err_not_group_cap cfg jitter kv
      (userID ++ "/" ++ replicaGroup) replica now l

/-- Witness for C4: with limit 1 and one tracked group already, a second
group for the same tenant is rejected with `tooManyReplicaGroups 1`. -/
theorem checkReplica_group_cap_witness :
    CheckReplica ⟨true, 15000, 5000, 30000, ⟨"consul"⟩⟩ 0 (some fun _ => 1)
      ⟨[("u1/c1", ⟨"R1", 0, 0⟩)], [("u1", ["c1"])], []⟩
      [("u1/c1", ⟨"R1", 0, 0⟩)] "u1" "c2" "R1" 5000 =
      ⟨some (.tooManyReplicaGroups 1),
        ⟨[("u1/c1", ⟨"R1", 0, 0⟩)], [("u1", ["c1"])], []⟩,
        [("u1/c1", ⟨"R1", 0, 0⟩)], false⟩ := by
  have h := checkReplica_group_cap ⟨true, 15000, 5000, 30000, ⟨"consul"⟩⟩ 0
    (some fun _ => 1) ⟨[("u1/c1", ⟨"R1", 0, 0⟩)], [("u1", ["c1"])], []⟩
    [("u1/c1", ⟨"R1", 0, 0⟩)] "u1" "c2" "R1" 5000 rfl (by decide)
  exact h.1 (fun _ => 1) rfl (by decide) (by decide)

/-- **C9**: `CheckReplica` never writes the local cache: the `elected`
and `replicaGroups` maps (and the change counters) after any call are the
ones read under the shared lock; elections enter the cache only through
the watch callback (`watchCB`), the sole mutator of `TrackerState` in
this development. -/
theorem checkReplica_cache_frame (cfg : HATrackerConfig) (jitter : Int)
    (limits : Option (String → Int)) (s : TrackerState)
    (kv : List (String × ReplicaDesc)) (userID replicaGroup replica : String)
    (now : Int) :
    (CheckReplica cfg jitter limits s kv userID replicaGroup replica now).cache
      = s := by
  unfold CheckReplica
  split
  · rfl
  · dsimp only
    split
    · split
      · split
        · rfl
        · rfl
      · rfl
    · split
      · split
        · rfl
        · rfl
      · rfl

/-! ### The cleanup sweep (`cleanupOldReplicas`) -/

/-- `deletionTimeout` (30 minutes) in ms. -/
def deletionTimeout : Int := 30 * 60 * 1000

/-- What the sweep does to one key, given the descriptor read from the
store and the deadline (`now - deletionTimeout`): skip it, blind-delete it
without CAS, or issue the marking CAS. -/
inductive CleanupAction where
  | skip : CleanupAction
  | blindDelete : CleanupAction
  | tryMark : CleanupAction
deriving DecidableEq

/-- The per-key dispatch of `cleanupOldReplicas`: a tombstone newer than
the deadline is skipped, an older tombstone is blind-deleted; a live
descriptor received before the deadline gets the marking CAS. -/
def cleanupKeyAction (desc : ReplicaDesc) (deadline : Int) : CleanupAction :=
  if desc.DeletedAt > 0 then
    if desc.DeletedAt > deadline then .skip else .blindDelete
  else if desc.DeletedAt = 0 ∧ desc.ReceivedAt < deadline then .tryMark
  else .skip

/-- The CAS mutator of the marking phase: `descReceivedAt` is the
`ReceivedAt` of the descriptor read *before* the CAS (the Go closure
captures the outer `desc`), `d?` the descriptor stored at CAS time, and
`nowMark` the `time.Now()` taken inside the mutator. Stores nothing when
the stored value is missing, already tombstoned, or the captured
`descReceivedAt` is not stale; otherwise stores `d` with `DeletedAt :=
nowMark`. -/
def cleanupMarkMutator (descReceivedAt deadline nowMark : Int)
    (d? : Option ReplicaDesc) : Option ReplicaDesc :=
  match d? with
  | none => none
  | some d =>
    if d.DeletedAt > 0 ∨ ¬(descReceivedAt < deadline) then none
    else some ⟨d.Replica, d.ReceivedAt, nowMark⟩

/-- **C3** (code bug): the marking CAS re-checks staleness on the
previously read `desc.ReceivedAt` — a value the sweep already knows to be
stale — instead of the stored `d.ReceivedAt`, so a descriptor whose
`ReceivedAt` was refreshed between the read (`ReceivedAt` 0, deadline 100)
and the CAS (stored `ReceivedAt` 500, i.e. no longer stale) is still
tombstoned, contradicting the specified "only if the stored descriptor is
still live and still stale". -/
theorem cleanup_mark_refreshed_still_tombstoned :
    cleanupMarkMutator 0 100 200 (some ⟨"R1", 500, 0⟩) =
      some ⟨"R1", 500, 200⟩ := by decide

/-- **C6** (as written): claimed false at the boundary — a tombstone whose
`DeletedAt` equals `now - deletionTimeout` exactly *is* blind-deleted,
although `DeletedAt < now - deletionTimeout` fails. -/
theorem cleanup_delete_boundary_cex :
    cleanupKeyAction ⟨"R1", 0, 1800000⟩ (3600000 - deletionTimeout) =
        .blindDelete
      ∧ ¬((1800000 : Int) < 3600000 - deletionTimeout) := by decide

/-- **C6** (amended): during a sweep at time `now`, a tombstoned
descriptor is blind-deleted (no CAS) exactly when `DeletedAt ≤ now -
deletionTimeout` (boundary inclusive); consequently a tombstone is never
unconditionally deleted before existing for at least `deletionTimeout`. -/
theorem cleanup_tombstone_delete (desc : ReplicaDesc) (now : Int)
    (htomb : desc.DeletedAt > 0) :
    (cleanupKeyAction desc (now - deletionTimeout) = .blindDelete ↔
      desc.DeletedAt ≤ now - deletionTimeout)
    ∧ (cleanupKeyAction desc (now - deletionTimeout) = .blindDelete →
      desc.DeletedAt + deletionTimeout ≤ now) := by
  have hiff : cleanupKeyAction desc (now - deletionTimeout) = .blindDelete ↔
      desc.DeletedAt ≤ now - deletionTimeout := by
    unfold cleanupKeyAction
    rw [if_pos htomb]
    constructor
    · intro h
      by_cases hd : desc.DeletedAt > now - deletionTimeout
      · rw [if_pos hd] at h
        exact absurd h (by decide)
      · omega
    · intro h
      rw [if_neg (by omega)]
  exact ⟨hiff, fun h => by have := hiff.mp h; omega⟩

/-- Witness for the amended C6: a tombstone from time 5 is blind-deleted
at `now = 1800010`, and has then existed for at least `deletionTimeout`. -/
theorem cleanup_tombstone_delete_witness :
    cleanupKeyAction ⟨"R1", 0, 5⟩ (1800010 - deletionTimeout) = .blindDelete
      ∧ (5 : Int) + deletionTimeout ≤ 1800010 := by
  have h := cleanup_tombstone_delete ⟨"R1", 0, 5⟩ 1800010 (by decide)
  exact ⟨h.1.mpr (by decide), h.2 (h.1.mpr (by decide))⟩

/-- **C7**: `Validate` fails exactly when the jitter bound is negative,
or `FailoverTimeout < UpdateTimeout + UpdateTimeoutJitterMax + 1s`, or
the KV backend is neither `consul` nor `etcd`; every failure refuses
startup (construction gate modelled from the spec). -/
theorem validate_fails_iff (cfg : HATrackerConfig) :
    (cfg.Validate ≠ none ↔
      (cfg.UpdateTimeoutJitterMax < 0 ∨
        cfg.FailoverTimeout <
          cfg.UpdateTimeout + cfg.UpdateTimeoutJitterMax + second ∨
        ¬(cfg.KVStore.Store = "consul" ∨ cfg.KVStore.Store = "etcd")))
    ∧ (cfg.Validate ≠ none → componentStarts cfg = false) := by
  by_cases h1 : cfg.UpdateTimeoutJitterMax < 0
  · have hv : cfg.Validate = some .negativeUpdateTimeoutJitterMax := by
      simp [HATrackerConfig.Validate, h1]
    simp [hv, componentStarts, h1]
  · by_cases h2 : cfg.FailoverTimeout <
        cfg.UpdateTimeout + cfg.UpdateTimeoutJitterMax + second
    · have hv : cfg.Validate = some .invalidFailoverTimeout := by
        simp [HATrackerConfig.Validate, h1, h2]
      simp [hv, componentStarts, h2]
    · by_cases h3 : cfg.KVStore.Store ∈ storeAllowedList
      · have hs : cfg.KVStore.Store = "consul" ∨ cfg.KVStore.Store = "etcd" := by
          simpa [storeAllowedList] using h3
        have hv : cfg.Validate = none := by
          simp [HATrackerConfig.Validate, h1, h2, h3]
        simp [hv, componentStarts, h1, h2, hs]
      · have hs : ¬(cfg.KVStore.Store = "consul" ∨ cfg.KVStore.Store = "etcd") := by
          simpa [storeAllowedList] using h3
        have hv : cfg.Validate = some .invalidStoreType := by
          simp [HATrackerConfig.Validate, h1, h2, h3]
        simp [hv, componentStarts, hs]

/-! ### `errors.Is` matching of the two rejection error types -/

/-- Go error values relevant to the tracker's `errors.Is` calls; the
`...Ref` constructors are the pointer (`*T`) forms. -/
inductive GoErr where
  | replicasNotMatch (replica elected : String) : GoErr
  | replicasNotMatchRef (replica elected : String) : GoErr
  | tooManyReplicaGroups (limit : Int) : GoErr
  | tooManyReplicaGroupsRef (limit : Int) : GoErr
deriving DecidableEq

/-- `ReplicasNotMatchError.Is`: true exactly when the target is a
`ReplicasNotMatchError` or a `*ReplicasNotMatchError`, fields ignored. -/
def replicasNotMatchErrorIs (target : GoErr) : Bool :=
  match target with
  | .replicasNotMatch _ _ => true
  | .replicasNotMatchRef _ _ => true
  | _ => false

/-- `TooManyReplicaGroupsError.Is`: true exactly when the target is a
`TooManyReplicaGroupsError` or a `*TooManyReplicaGroupsError`. -/
def tooManyReplicaGroupsErrorIs (target : GoErr) : Bool :=
  match target with
  | .tooManyReplicaGroups _ => true
  | .tooManyReplicaGroupsRef _ => true
  | _ => false

/-- Go's `errors.Is` specialised to these flat errors (none wraps another
error): comparable equality, then the receiver's `Is` method. -/
def errorsIs (err target : GoErr) : Bool :=
  (err == target) ||
    match err with
    | .replicasNotMatch _ _ => replicasNotMatchErrorIs target
    | .replicasNotMatchRef _ _ => replicasNotMatchErrorIs target
    | .tooManyReplicaGroups _ => tooManyReplicaGroupsErrorIs target
    | .tooManyReplicaGroupsRef _ => tooManyReplicaGroupsErrorIs target

/-- **C10**: `errors.Is` between any two `ReplicasNotMatchError` values
holds regardless of fields (value or pointer forms alike), likewise for
`TooManyReplicaGroupsError` regardless of its limit, and the two error
types never match each other. -/
theorem errors_is_field_insensitive :
    (∀ r1 e1 r2 e2 : String,
      errorsIs (.replicasNotMatch r1 e1) (.replicasNotMatch r2 e2) = true
      ∧ errorsIs (.replicasNotMatchRef r1 e1) (.replicasNotMatchRef r2 e2) = true
      ∧ errorsIs (.replicasNotMatch r1 e1) (.replicasNotMatchRef r2 e2) = true
      ∧ errorsIs (.replicasNotMatchRef r1 e1) (.replicasNotMatch r2 e2) = true)
    ∧ (∀ l1 l2 : Int,
      errorsIs (.tooManyReplicaGroups l1) (.tooManyReplicaGroups l2) = true
      ∧ errorsIs (.tooManyReplicaGroupsRef l1) (.tooManyReplicaGroupsRef l2) = true)
    ∧ (∀ (r e : String) (l : Int),
      errorsIs (.replicasNotMatch r e) (.tooManyReplicaGroups l) = false
      ∧ errorsIs (.tooManyReplicaGroups l) (.replicasNotMatch r e) = false
      ∧ errorsIs (.replicasNotMatchRef r e) (.tooManyReplicaGroupsRef l) = false
      ∧ errorsIs (.tooManyReplicaGroupsRef l) (.replicasNotMatchRef r e) = false) := by
  refine ⟨?_, ?_, ?_⟩ <;> intros <;>
    simp [errorsIs, replicasNotMatchErrorIs, tooManyReplicaGroupsErrorIs]

end HA
